import Mathlib

/-!
Verification of the history store of the datavis-pro application
(`src-tauri/src/data/store.rs` and `src-tauri/src/models/history.rs`).

The store owns a vector of history entries, an optional cursor into it and a
maximum depth, and implements push/undo/redo/jump/reset/clear/trim with
linear-history semantics.  The entries carry a polars `DataFrame`, an
`OperationType` and a `DatasetInfo` that the store never inspects (the only
field the store reads is `id`); those opaque payloads are modelled by `Nat`
stand-ins so that equality of entries stays decidable.  Rust's
`Vec<HistoryEntry>` is modelled by `List HistoryEntry`, `usize` by `Nat`
(the one place where `usize` subtraction may underflow is modelled
explicitly, see `DataStore.push_operation_checked`), and a method
`&mut self -> Result<(), E>` by a function `DataStore → DataStore × Except E Unit`
returning the updated store together with the result, so that the state left
behind by an error path is part of the model.
-/

/-- `models/history.rs`: `HistoryEntry`.  `operation : OperationType`,
`dataframe : DataFrame` and `metadata : DatasetInfo` are opaque to the store
and are modelled by `Nat` stand-ins. -/
structure HistoryEntry where
  id : String
  operation : Nat
  dataframe : Nat
  metadata : Nat
  timestamp : String
  description : String
deriving DecidableEq, Repr

/-- `models/history.rs`: `HistoryEntryInfo`, the serializable projection of a
`HistoryEntry` without the `dataframe` field. -/
structure HistoryEntryInfo where
  id : String
  operation : Nat
  metadata : Nat
  timestamp : String
  description : String
deriving DecidableEq, Repr

/-- `models/history.rs`: `impl From<&HistoryEntry> for HistoryEntryInfo`. -/
def HistoryEntryInfo.ofEntry (entry : HistoryEntry) : HistoryEntryInfo :=
  { id := entry.id
    operation := entry.operation
    metadata := entry.metadata
    timestamp := entry.timestamp
    description := entry.description }

/-- `error.rs`: `DataAnalystError`.  Variants wrapping foreign error types
(`IoError`, `SerializationError`) are modelled as carrying the error's
message string. -/
inductive DataAnalystError where
  | FileReadError (msg : String)
  | CsvParseError (msg : String)
  | ExcelParseError (msg : String)
  | DatasetNotFound (msg : String)
  | InvalidDataFormat (msg : String)
  | PolarsError (msg : String)
  | IoError (msg : String)
  | SerializationError (msg : String)
  | InvalidOperation (msg : String)
deriving DecidableEq, Repr

/-- `data/store.rs`: `DataStore` — the history stack, the current cursor and
the maximum depth. -/
structure DataStore where
  history : List HistoryEntry
  current_index : Option Nat
  max_history : Nat
deriving DecidableEq, Repr

/-- `DataStore::new` — empty store with the default depth 50. -/
def DataStore.new : DataStore :=
  { history := [], current_index := none, max_history := 50 }

/-- `DataStore::with_max_history`. -/
def DataStore.with_max_history (max_history : Nat) : DataStore :=
  { history := [], current_index := none, max_history := max_history }

/-- `DataStore::push_operation`: truncate the redo branch (or defensively
clear when the cursor is `None`), append the entry, then either evict the
oldest entry (`Vec::remove(0)`, modelled by `List.drop 1`) when the depth
bound is exceeded, or not; in both branches set the cursor to the last
index. -/
def DataStore.push_operation (s : DataStore) (entry : HistoryEntry) : DataStore :=
  let truncated : List HistoryEntry :=
    match s.current_index with
    | some index => s.history.take (index + 1)
    | none => []
  let pushed := truncated ++ [entry]
  if pushed.length > s.max_history then
    { s with history := pushed.drop 1
             current_index := some ((pushed.drop 1).length - 1) }
  else
    { s with history := pushed
             current_index := some (pushed.length - 1) }

/-- `DataStore::push_operation` with the `usize` subtractions made explicit:
`none` models the Rust panic that `self.history.len() - 1` would raise when
the history is empty at that point (usize underflow).  Identical to
`push_operation` otherwise. -/
def DataStore.push_operation_checked (s : DataStore) (entry : HistoryEntry) :
    Option DataStore :=
  let truncated : List HistoryEntry :=
    match s.current_index with
    | some index => s.history.take (index + 1)
    | none => []
  let pushed := truncated ++ [entry]
  if pushed.length > s.max_history then
    let evicted := pushed.drop 1
    if evicted.length = 0 then
      none
    else
      some { s with history := evicted
                    current_index := some (evicted.length - 1) }
  else
    if pushed.length = 0 then
      none
    else
      some { s with history := pushed
                    current_index := some (pushed.length - 1) }

/-- `DataStore::get_current` (the current `DataFrame`, via the `dataframe`
stand-in). -/
def DataStore.get_current (s : DataStore) : Option Nat :=
  (s.current_index.bind (fun index => s.history[index]?)).map
    (fun entry => entry.dataframe)

/-- `DataStore::get_current_entry`. -/
def DataStore.get_current_entry (s : DataStore) : Option HistoryEntry :=
  s.current_index.bind (fun index => s.history[index]?)

/-- `DataStore::undo`: decrement the cursor; error (leaving the store
untouched) at the earliest entry or when there is no data. -/
def DataStore.undo (s : DataStore) : DataStore × Except DataAnalystError Unit :=
  match s.current_index with
  | some index =>
      if index > 0 then
        ({ s with current_index := some (index - 1) }, Except.ok ())
      else
        (s, Except.error (DataAnalystError.InvalidOperation ("已经在最早状态，无法撤销")))
  | none =>
      (s, Except.error (DataAnalystError.InvalidOperation ("没有数据")))

/-- `DataStore::redo`: increment the cursor; error (leaving the store
untouched) at the latest entry or when there is no data. -/
def DataStore.redo (s : DataStore) : DataStore × Except DataAnalystError Unit :=
  match s.current_index with
  | some index =>
      if index < s.history.length - 1 then
        ({ s with current_index := some (index + 1) }, Except.ok ())
      else
        (s, Except.error (DataAnalystError.InvalidOperation ("已经在最新状态，无法重做")))
  | none =>
      (s, Except.error (DataAnalystError.InvalidOperation ("没有数据")))

/-- `Iterator::position` as used by `DataStore::jump_to`: index of the first
element satisfying the predicate. -/
def listPosition (p : HistoryEntry → Bool) : List HistoryEntry → Option Nat
  | [] => none
  | entry :: rest =>
      if p entry then some 0 else (listPosition p rest).map (fun i => i + 1)

/-- `DataStore::jump_to`: linear scan for the entry with the given id;
found → set the cursor there, not found → error leaving the store
untouched. -/
def DataStore.jump_to (s : DataStore) (entry_id : String) :
    DataStore × Except DataAnalystError Unit :=
  match listPosition (fun entry => entry.id = entry_id) s.history with
  | some index => ({ s with current_index := some index }, Except.ok ())
  | none =>
      (s, Except.error (DataAnalystError.InvalidOperation
        ("找不到历史节点: " ++ entry_id)))

/-- `DataStore::get_history`: project every entry to its `HistoryEntryInfo`. -/
def DataStore.get_history (s : DataStore) : List HistoryEntryInfo :=
  s.history.map HistoryEntryInfo.ofEntry

/-- `DataStore::get_current_index`. -/
def DataStore.get_current_index (s : DataStore) : Option Nat :=
  s.current_index

/-- `DataStore::history_len`. -/
def DataStore.history_len (s : DataStore) : Nat :=
  s.history.length

/-- `DataStore::can_undo`. -/
def DataStore.can_undo (s : DataStore) : Bool :=
  match s.current_index with
  | some index => decide (index > 0)
  | none => false

/-- `DataStore::can_redo`. -/
def DataStore.can_redo (s : DataStore) : Bool :=
  match s.current_index with
  | some index => decide (index < s.history.length - 1)
  | none => false

/-- `DataStore::clear`. -/
def DataStore.clear (s : DataStore) : DataStore :=
  { s with history := [], current_index := none }

/-- `DataStore::reset_to_initial`: error on an empty history, otherwise keep
only the first entry and put the cursor on it. -/
def DataStore.reset_to_initial (s : DataStore) :
    DataStore × Except DataAnalystError Unit :=
  if s.history.isEmpty then
    (s, Except.error (DataAnalystError.InvalidOperation ("没有历史记录")))
  else
    ({ s with history := s.history.take 1, current_index := some 0 }, Except.ok ())

/-- `DataStore::trim_history`: when the history is longer than `keep_count`,
drain the oldest `len - keep_count` entries (`Vec::drain(0..remove_count)`,
modelled by `List.drop`) and shift the cursor down, clamping it to 0. -/
def DataStore.trim_history (s : DataStore) (keep_count : Nat) : DataStore :=
  if s.history.length > keep_count then
    let remove_count := s.history.length - keep_count
    let current_index :=
      match s.current_index with
      | some index =>
          if index ≥ remove_count then some (index - remove_count) else some 0
      | none => none
    { s with history := s.history.drop remove_count, current_index := current_index }
  else
    s

/-- One invocation of a public mutating operation of the store. -/
inductive StoreOp where
  | push (entry : HistoryEntry)
  | undo
  | redo
  | jumpTo (entry_id : String)
  | clear
  | resetToInitial
  | trimHistory (keep_count : Nat)
deriving DecidableEq, Repr

/-- Run one operation, keeping the store a fallible operation leaves behind
(errors leave the store untouched, see `DataStore.undo` etc.). -/
def DataStore.applyOp (s : DataStore) : StoreOp → DataStore
  | StoreOp.push entry => s.push_operation entry
  | StoreOp.undo => s.undo.1
  | StoreOp.redo => s.redo.1
  | StoreOp.jumpTo entry_id => (s.jump_to entry_id).1
  | StoreOp.clear => s.clear
  | StoreOp.resetToInitial => s.reset_to_initial.1
  | StoreOp.trimHistory keep_count => s.trim_history keep_count

/-- Run a sequence of operations in order. -/
def DataStore.applyOps (s : DataStore) (ops : List StoreOp) : DataStore :=
  ops.foldl DataStore.applyOp s

/-- Push a whole list of entries in order. -/
def DataStore.pushAll (s : DataStore) (entries : List HistoryEntry) : DataStore :=
  entries.foldl DataStore.push_operation s

/-- Apply `redo` `n` times, keeping the store an error leaves behind. -/
def DataStore.redoN (s : DataStore) : Nat → DataStore
  | 0 => s
  | n + 1 => DataStore.redoN s.redo.1 n

/-- The state invariant of the store (spec §3): the cursor is `None` exactly
on an empty history, an occupied cursor is in bounds, and the history never
exceeds the depth bound. -/
def DataStore.Invariant (s : DataStore) : Prop :=
  (s.current_index = none ↔ s.history = []) ∧
  (∀ i, s.current_index = some i → i < s.history.length) ∧
  s.history.length ≤ s.max_history

/-- Every `trim_history` call in the sequence keeps at least one entry. -/
def trimKeepsPositive (ops : List StoreOp) : Bool :=
  ops.all (fun op =>
    match op with
    | StoreOp.trimHistory keep_count => decide (1 ≤ keep_count)
    | _ => true)

/-- A concrete history entry used by counterexamples and witnesses. -/
def entryA : HistoryEntry :=
  { id := "a", operation := 0, dataframe := 0, metadata := 0
    timestamp := "t0", description := "import" }

/-- A second concrete history entry. -/
def entryB : HistoryEntry :=
  { id := "b", operation := 1, dataframe := 1, metadata := 1
    timestamp := "t1", description := "filter" }

/-- A third concrete history entry. -/
def entryC : HistoryEntry :=
  { id := "c", operation := 2, dataframe := 2, metadata := 2
    timestamp := "t2", description := "pivot" }

/-- A fourth concrete history entry. -/
def entryD : HistoryEntry :=
  { id := "d", operation := 3, dataframe := 3, metadata := 3
    timestamp := "t3", description := "fill" }

lemma listPosition_lt_length {p : HistoryEntry → Bool} :
    ∀ {l : List HistoryEntry} {i : Nat}, listPosition p l = some i → i < l.length := by
  intro l
  induction l with
  | nil => intro i h; simp [listPosition] at h
  | cons a t ih =>
      intro i h
      simp only [listPosition] at h
      by_cases hp : p a
      · rw [if_pos hp] at h
        cases h
        simp
      · rw [if_neg hp] at h
        cases ht : listPosition p t with
        | none => rw [ht] at h; simp at h
        | some j =>
            rw [ht] at h
            simp at h
            have := ih ht
            simp [List.length_cons]
            omega

lemma listPosition_eq_none {p : HistoryEntry → Bool} :
    ∀ {l : List HistoryEntry}, (∀ e ∈ l, p e = false) → listPosition p l = none := by
  intro l
  induction l with
  | nil => intro _; rfl
  | cons a t ih =>
      intro h
      simp only [listPosition]
      rw [if_neg (by simp [h a (by simp)])]
      rw [ih (fun e he => h e (by simp [he]))]
      rfl

lemma DataStore.undo_fst_history (s : DataStore) : s.undo.1.history = s.history := by
  unfold DataStore.undo
  cases s.current_index with
  | none => rfl
  | some i =>
      by_cases h : i > 0
      · simp [h]
      · simp [h]

lemma DataStore.redo_fst_history (s : DataStore) : s.redo.1.history = s.history := by
  unfold DataStore.redo
  cases s.current_index with
  | none => rfl
  | some i =>
      by_cases h : i < s.history.length - 1
      · simp [h]
      · simp [h]

lemma DataStore.jump_to_fst_history (s : DataStore) (entry_id : String) :
    (s.jump_to entry_id).1.history = s.history := by
  unfold DataStore.jump_to
  cases listPosition (fun entry => entry.id = entry_id) s.history with
  | none => rfl
  | some i => rfl

lemma DataStore.redoN_history (s : DataStore) :
    ∀ n, (s.redoN n).history = s.history := by
  intro n
  induction n generalizing s with
  | zero => rfl
  | succ m ih =>
      show (s.redo.1.redoN m).history = s.history
      rw [ih s.redo.1, DataStore.redo_fst_history]

lemma DataStore.invariant_of (s : DataStore) (i : Nat)
    (hc : s.current_index = some i) (hi : i < s.history.length)
    (hlen : s.history.length ≤ s.max_history) : s.Invariant := by
  refine ⟨?_, ?_, hlen⟩
  · constructor
    · intro hcontra
      rw [hc] at hcontra
      cases hcontra
    · intro hcontra
      rw [hcontra] at hi
      exact absurd hi (by simp)
  · intro j hj
    rw [hc] at hj
    injection hj with h
    subst h
    exact hi

lemma DataStore.invariant_of_none (s : DataStore)
    (hc : s.current_index = none) (hh : s.history = []) : s.Invariant := by
  refine ⟨by rw [hc, hh]; simp, ?_, by rw [hh]; simp⟩
  intro j hj
  rw [hc] at hj
  cases hj

lemma DataStore.invariant_push (s : DataStore) (e : HistoryEntry)
    (hmax : 1 ≤ s.max_history) (h : s.Invariant) :
    (s.push_operation e).Invariant := by
  obtain ⟨h1, h2, h3⟩ := h
  unfold DataStore.push_operation
  cases hc : s.current_index with
  | none =>
      dsimp only
      rw [if_neg (by simp; omega)]
      refine DataStore.invariant_of _ (([] ++ [e]).length - 1) rfl ?_ ?_
      · simp
      · simp only [List.nil_append, List.length_cons, List.length_nil]
        omega
  | some i =>
      have hi : i < s.history.length := h2 i hc
      have htake : (s.history.take (i + 1)).length = i + 1 := by
        simp [List.length_take]
        omega
      have hlen : (s.history.take (i + 1) ++ [e]).length = i + 2 := by
        simp [htake]
      dsimp only
      by_cases hev : (s.history.take (i + 1) ++ [e]).length > s.max_history
      · rw [if_pos hev]
        have hdlen : ((s.history.take (i + 1) ++ [e]).drop 1).length = i + 1 := by
          simp [List.length_drop, hlen]
        refine DataStore.invariant_of _ _ rfl ?_ ?_
        · dsimp only
          rw [hdlen]
          omega
        · dsimp only
          rw [hdlen]
          omega
      · rw [if_neg hev]
        rw [hlen] at hev
        refine DataStore.invariant_of _ _ rfl ?_ ?_
        · dsimp only
          rw [hlen]
          omega
        · dsimp only
          rw [hlen]
          omega

lemma DataStore.invariant_undo (s : DataStore) (h : s.Invariant) :
    s.undo.1.Invariant := by
  obtain ⟨h1, h2, h3⟩ := h
  unfold DataStore.undo
  cases hc : s.current_index with
  | none => exact ⟨h1, h2, h3⟩
  | some i =>
      dsimp only
      by_cases hpos : i > 0
      · rw [if_pos hpos]
        have hi : i < s.history.length := h2 i hc
        refine DataStore.invariant_of _ _ rfl ?_ ?_
        · dsimp only
          omega
        · exact h3
      · rw [if_neg hpos]
        exact ⟨h1, h2, h3⟩

lemma DataStore.invariant_redo (s : DataStore) (h : s.Invariant) :
    s.redo.1.Invariant := by
  obtain ⟨h1, h2, h3⟩ := h
  unfold DataStore.redo
  cases hc : s.current_index with
  | none => exact ⟨h1, h2, h3⟩
  | some i =>
      dsimp only
      by_cases hlt : i < s.history.length - 1
      · rw [if_pos hlt]
        have hi : i < s.history.length := h2 i hc
        refine DataStore.invariant_of _ _ rfl ?_ ?_
        · dsimp only
          omega
        · exact h3
      · rw [if_neg hlt]
        exact ⟨h1, h2, h3⟩

lemma DataStore.invariant_jump_to (s : DataStore) (entry_id : String)
    (h : s.Invariant) : (s.jump_to entry_id).1.Invariant := by
  obtain ⟨h1, h2, h3⟩ := h
  unfold DataStore.jump_to
  cases hp : listPosition (fun entry => entry.id = entry_id) s.history with
  | none => exact ⟨h1, h2, h3⟩
  | some i =>
      have hi : i < s.history.length := listPosition_lt_length hp
      dsimp only
      refine DataStore.invariant_of _ _ rfl ?_ ?_
      · exact hi
      · exact h3

lemma DataStore.invariant_clear (s : DataStore) : s.clear.Invariant :=
  DataStore.invariant_of_none _ rfl rfl

lemma DataStore.invariant_reset (s : DataStore) (hmax : 1 ≤ s.max_history)
    (h : s.Invariant) : s.reset_to_initial.1.Invariant := by
  obtain ⟨h1, h2, h3⟩ := h
  unfold DataStore.reset_to_initial
  by_cases hemp : s.history.isEmpty
  · rw [if_pos hemp]
    exact ⟨h1, h2, h3⟩
  · rw [if_neg hemp]
    have hne : s.history.length ≠ 0 := by
      intro hcontra
      rw [List.isEmpty_iff_length_eq_zero] at hemp
      exact hemp hcontra
    have hlen : (s.history.take 1).length = 1 := by
      simp [List.length_take]
      omega
    dsimp only
    refine DataStore.invariant_of _ 0 rfl ?_ ?_
    · dsimp only
      rw [hlen]
      omega
    · dsimp only
      rw [hlen]
      omega

lemma DataStore.invariant_trim (s : DataStore) (keep_count : Nat)
    (hkeep : 1 ≤ keep_count) (h : s.Invariant) :
    (s.trim_history keep_count).Invariant := by
  obtain ⟨h1, h2, h3⟩ := h
  unfold DataStore.trim_history
  by_cases hgt : s.history.length > keep_count
  · rw [if_pos hgt]
    have hdlen :
        (s.history.drop (s.history.length - keep_count)).length = keep_count := by
      simp [List.length_drop]
      omega
    cases hc : s.current_index with
    | none =>
        have hhist : s.history = [] := h1.mp hc
        rw [hhist] at hgt
        simp at hgt
    | some i =>
        have hi : i < s.history.length := h2 i hc
        dsimp only
        by_cases hge : i ≥ s.history.length - keep_count
        · rw [if_pos hge]
          refine DataStore.invariant_of _ _ rfl ?_ ?_
          · dsimp only
            rw [hdlen]
            omega
          · dsimp only
            rw [hdlen]
            omega
        · rw [if_neg hge]
          refine DataStore.invariant_of _ 0 rfl ?_ ?_
          · dsimp only
            rw [hdlen]
            omega
          · dsimp only
            rw [hdlen]
            omega
  · rw [if_neg hgt]
    exact ⟨h1, h2, h3⟩

lemma DataStore.push_max (s : DataStore) (e : HistoryEntry) :
    (s.push_operation e).max_history = s.max_history := by
  unfold DataStore.push_operation
  cases s.current_index with
  | none =>
      dsimp only
      split
      · rfl
      · rfl
  | some i =>
      dsimp only
      split
      · rfl
      · rfl

lemma DataStore.undo_fst_max (s : DataStore) :
    s.undo.1.max_history = s.max_history := by
  unfold DataStore.undo
  cases s.current_index with
  | none => rfl
  | some i =>
      by_cases h : i > 0
      · simp [h]
      · simp [h]

lemma DataStore.redo_fst_max (s : DataStore) :
    s.redo.1.max_history = s.max_history := by
  unfold DataStore.redo
  cases s.current_index with
  | none => rfl
  | some i =>
      by_cases h : i < s.history.length - 1
      · simp [h]
      · simp [h]

lemma DataStore.jump_to_fst_max (s : DataStore) (entry_id : String) :
    (s.jump_to entry_id).1.max_history = s.max_history := by
  unfold DataStore.jump_to
  cases listPosition (fun entry => entry.id = entry_id) s.history with
  | none => rfl
  | some i => rfl

lemma DataStore.reset_fst_max (s : DataStore) :
    s.reset_to_initial.1.max_history = s.max_history := by
  unfold DataStore.reset_to_initial
  by_cases hemp : s.history.isEmpty
  · simp [hemp]
  · simp [hemp]

lemma DataStore.trim_max (s : DataStore) (keep_count : Nat) :
    (s.trim_history keep_count).max_history = s.max_history := by
  unfold DataStore.trim_history
  by_cases hgt : s.history.length > keep_count
  · simp [hgt]
  · simp [hgt]

lemma DataStore.applyOp_max_history (s : DataStore) (op : StoreOp) :
    (s.applyOp op).max_history = s.max_history := by
  cases op with
  | push e => exact DataStore.push_max s e
  | undo => exact DataStore.undo_fst_max s
  | redo => exact DataStore.redo_fst_max s
  | jumpTo entry_id => exact DataStore.jump_to_fst_max s entry_id
  | clear => rfl
  | resetToInitial => exact DataStore.reset_fst_max s
  | trimHistory keep_count => exact DataStore.trim_max s keep_count

lemma DataStore.get_current_entry_mem (s : DataStore) (d : HistoryEntry)
    (h : s.get_current_entry = some d) : d ∈ s.history := by
  unfold DataStore.get_current_entry at h
  cases hc : s.current_index with
  | none => rw [hc] at h; simp at h
  | some i =>
      rw [hc] at h
      exact List.getElem?_mem h

lemma DataStore.invariant_applyOp (s : DataStore) (op : StoreOp)
    (hmax : 1 ≤ s.max_history) (h : s.Invariant)
    (hop : ∀ k, op = StoreOp.trimHistory k → 1 ≤ k) :
    (s.applyOp op).Invariant := by
  cases op with
  | push e => exact s.invariant_push e hmax h
  | undo => exact s.invariant_undo h
  | redo => exact s.invariant_redo h
  | jumpTo entry_id => exact s.invariant_jump_to entry_id h
  | clear => exact s.invariant_clear
  | resetToInitial => exact s.invariant_reset hmax h
  | trimHistory k => exact s.invariant_trim k (hop k rfl) h

lemma DataStore.invariant_applyOps : ∀ (ops : List StoreOp) (s : DataStore),
    1 ≤ s.max_history → s.Invariant → trimKeepsPositive ops = true →
    (s.applyOps ops).Invariant := by
  intro ops
  induction ops with
  | nil =>
      intro s _ h _
      exact h
  | cons op rest ih =>
      intro s hmax h htrim
      rw [trimKeepsPositive, List.all_cons, Bool.and_eq_true] at htrim
      obtain ⟨hop, hrest⟩ := htrim
      have hstep : (s.applyOp op).Invariant := by
        apply s.invariant_applyOp op hmax h
        intro k hk
        subst hk
        simpa using hop
      have hmax2 : 1 ≤ (s.applyOp op).max_history := by
        rw [s.applyOp_max_history]
        exact hmax
      exact ih (s.applyOp op) hmax2 hstep hrest

lemma DataStore.push_cursor_last (s : DataStore) (e : HistoryEntry) :
    (s.push_operation e).current_index =
      some ((s.push_operation e).history.length - 1) := by
  unfold DataStore.push_operation
  cases s.current_index with
  | none =>
      dsimp only
      split
      · rfl
      · rfl
  | some i =>
      dsimp only
      split
      · rfl
      · rfl

lemma DataStore.pushAll_no_evict : ∀ (es : List HistoryEntry) (s : DataStore),
    s.history ≠ [] → s.current_index = some (s.history.length - 1) →
    s.history.length + es.length ≤ s.max_history →
    s.pushAll es = { s with history := s.history ++ es,
                            current_index := some (s.history.length + es.length - 1) } := by
  intro es
  induction es with
  | nil =>
      intro s hne hc hlen
      cases s with
      | mk hist ci maxh =>
          simp only [DataStore.pushAll, List.foldl_nil]
          simp only at hc
          simp [hc]
  | cons e rest ih =>
      intro s hne hc hlen
      have hplen : 1 ≤ s.history.length := by
        cases hh : s.history with
        | nil => exact absurd hh hne
        | cons a t => simp [hh]
      have hpush : s.push_operation e =
          { s with history := s.history ++ [e],
                    current_index := some (s.history.length + 1 - 1) } := by
        unfold DataStore.push_operation
        rw [hc]
        dsimp only
        have heq : s.history.length - 1 + 1 = s.history.length := by omega
        rw [heq, List.take_length]
        rw [if_neg (by simp at hlen ⊢; omega)]
        simp
      show (s.push_operation e).pushAll rest = _
      rw [hpush]
      rw [ih _ (by simp) (by simp) (by simp at hlen ⊢; omega)]
      simp only [List.length_append, List.length_cons, List.length_nil,
        List.append_assoc, List.singleton_append]
      congr 2
      omega

/-- C1 (amended): for every `DataStore` constructed with `max_history ≥ 1`
and every sequence of the public operations (`push_operation`, `undo`,
`redo`, `jump_to`, `clear`, `reset_to_initial`, `trim_history`) in which
every `trim_history` call keeps at least one entry, the state invariant
holds after each operation: `current_index` is `None` iff `history` is
empty, an occupied cursor is in bounds, and the history never exceeds
`max_history`. -/
theorem C1_invariant_all_ops (max_history : Nat) (ops : List StoreOp)
    (hmax : 1 ≤ max_history) (htrim : trimKeepsPositive ops = true) :
    ((DataStore.with_max_history max_history).applyOps ops).Invariant :=
  DataStore.invariant_applyOps ops (DataStore.with_max_history max_history)
    hmax (DataStore.invariant_of_none _ rfl rfl) htrim

/-- C1 witness: the invariant theorem applies to the concrete sequence
push, undo, trim(1) on a store of depth 3. -/
theorem C1_invariant_all_ops_witness :
    1 ≤ 3 ∧
    trimKeepsPositive [StoreOp.push entryA, StoreOp.undo, StoreOp.trimHistory 1] = true ∧
    ((DataStore.with_max_history 3).applyOps
      [StoreOp.push entryA, StoreOp.undo, StoreOp.trimHistory 1]).Invariant :=
  ⟨by decide, by decide,
    C1_invariant_all_ops 3 [StoreOp.push entryA, StoreOp.undo, StoreOp.trimHistory 1]
      (by decide) (by decide)⟩

/-- C1 counterexample: `trim_history 0` on a one-entry store empties the
history but leaves the cursor at `Some 0`, so the claimed invariant fails
after a sequence of public operations on a store with `max_history = 50 ≥ 1`. -/
theorem C1_counterexample :
    ¬ ((DataStore.with_max_history 50).applyOps
        [StoreOp.push entryA, StoreOp.trimHistory 0]).Invariant := by
  intro h
  obtain ⟨h1, -, -⟩ := h
  have hstate : (DataStore.with_max_history 50).applyOps
      [StoreOp.push entryA, StoreOp.trimHistory 0]
      = { history := [], current_index := some 0, max_history := 50 } := by decide
  rw [hstate] at h1
  exact Option.noConfusion (h1.mpr rfl)

/-- C2: immediately after any `push_operation` the cursor equals
`Some(history.len() - 1)`; and after `k` pushes into a fresh store with
`max_history ≥ k ≥ 1` (so no eviction occurs) the history holds the `k`
pushed entries and the cursor is `Some(k-1)`. -/
theorem C2_cursor_after_push :
    (∀ (s : DataStore) (e : HistoryEntry),
      (s.push_operation e).current_index =
        some ((s.push_operation e).history.length - 1)) ∧
    (∀ (max_history : Nat) (es : List HistoryEntry),
      1 ≤ max_history → es ≠ [] → es.length ≤ max_history →
      (DataStore.with_max_history max_history).pushAll es
        = { history := es, current_index := some (es.length - 1),
            max_history := max_history }) := by
  constructor
  · exact DataStore.push_cursor_last
  · intro max_history es hmax hne hlen
    cases es with
    | nil => exact absurd rfl hne
    | cons e rest =>
        have hfirst : (DataStore.with_max_history max_history).push_operation e
            = { history := [e], current_index := some 0,
                max_history := max_history } := by
          unfold DataStore.push_operation DataStore.with_max_history
          dsimp only
          rw [if_neg (by simp; omega)]
          simp
        show ((DataStore.with_max_history max_history).push_operation e).pushAll rest = _
        rw [hfirst]
        rw [DataStore.pushAll_no_evict rest _ (by simp) (by simp)
          (by simp at hlen ⊢; omega)]
        simp only [List.singleton_append, List.length_cons, List.length_nil]
        congr 2
        simp

/-- C3: pushing while the cursor sits strictly before the last entry (after
one or more undos) discards every entry beyond the cursor before appending:
the new history is the first `i+1` old entries plus the new one,
`get_history()` has length `i + 2`, and a discarded entry (one from beyond
the cursor that does not survive in the new history) is never the current
entry after any number of subsequent `redo` calls. -/
theorem C3_push_discards_redo_branch (s : DataStore) (e d : HistoryEntry)
    (i n : Nat)
    (hc : s.current_index = some i)
    (hlt : i + 1 < s.history.length)
    (hbound : s.history.length ≤ s.max_history)
    (hd : d ∈ s.history.drop (i + 1))
    (hgone : d ∉ s.history.take (i + 1) ++ [e]) :
    (s.push_operation e).history = s.history.take (i + 1) ++ [e] ∧
    (s.push_operation e).get_history.length = i + 2 ∧
    ((s.push_operation e).redoN n).get_current_entry ≠ some d := by
  have hpush : s.push_operation e =
      { s with history := s.history.take (i + 1) ++ [e],
               current_index := some ((s.history.take (i + 1) ++ [e]).length - 1) } := by
    unfold DataStore.push_operation
    rw [hc]
    dsimp only
    rw [if_neg (by simp [List.length_take]; omega)]
  refine ⟨by rw [hpush], ?_, ?_⟩
  · rw [hpush]
    simp only [DataStore.get_history, List.length_map, List.length_append,
      List.length_take, List.length_cons, List.length_nil]
    omega
  · intro hcontra
    have hmem : d ∈ ((s.push_operation e).redoN n).history :=
      DataStore.get_current_entry_mem _ _ hcontra
    rw [DataStore.redoN_history] at hmem
    rw [hpush] at hmem
    exact hgone hmem

/-- C3 witness: a concrete store pointing at index 0 of three entries;
pushing a fourth discards the second and third, and one redo cannot reach
the discarded second entry. -/
theorem C3_push_discards_redo_branch_witness :
    (DataStore.mk [entryA, entryB, entryC] (some 0) 50).current_index = some 0 ∧
    0 + 1 < (DataStore.mk [entryA, entryB, entryC] (some 0) 50).history.length ∧
    (DataStore.mk [entryA, entryB, entryC] (some 0) 50).history.length ≤ 50 ∧
    entryB ∈ (DataStore.mk [entryA, entryB, entryC] (some 0) 50).history.drop (0 + 1) ∧
    entryB ∉ (DataStore.mk [entryA, entryB, entryC] (some 0) 50).history.take (0 + 1) ++ [entryD] ∧
    (((DataStore.mk [entryA, entryB, entryC] (some 0) 50).push_operation entryD).history
      = (DataStore.mk [entryA, entryB, entryC] (some 0) 50).history.take (0 + 1) ++ [entryD] ∧
    ((DataStore.mk [entryA, entryB, entryC] (some 0) 50).push_operation entryD).get_history.length = 0 + 2 ∧
    (((DataStore.mk [entryA, entryB, entryC] (some 0) 50).push_operation entryD).redoN 1).get_current_entry ≠ some entryB) :=
  ⟨by decide, by decide, by decide, by decide, by decide,
    C3_push_discards_redo_branch (DataStore.mk [entryA, entryB, entryC] (some 0) 50)
      entryD entryB 0 1 rfl (by decide) (by decide) (by decide) (by decide)⟩

/-- C4: pushing a `(d+1)`-th entry into a full store of depth `d` whose
cursor is on the last entry evicts the oldest entry: the length stays `d`,
the old head's id (unique among the ids in play, per the UUID contract) is
absent from `get_history()`, and the cursor `Some(d-1)` points at the newly
pushed entry. -/
theorem C4_eviction_on_full_push (s : DataStore) (e d : HistoryEntry)
    (hmax : 1 ≤ s.max_history)
    (hfull : s.history.length = s.max_history)
    (hc : s.current_index = some (s.max_history - 1))
    (hhead : s.history.head? = some d)
    (hids : ((s.history ++ [e]).map HistoryEntry.id).Nodup) :
    (s.push_operation e).history.length = s.max_history ∧
    d.id ∉ (s.push_operation e).get_history.map HistoryEntryInfo.id ∧
    (s.push_operation e).current_index = some (s.max_history - 1) ∧
    (s.push_operation e).get_current_entry = some e := by
  cases hh : s.history with
  | nil =>
      rw [hh] at hfull
      simp at hfull
      omega
  | cons a tail =>
      rw [hh] at hhead
      simp at hhead
      subst hhead
      have htail : tail.length + 1 = s.max_history := by
        rw [← hfull, hh]
        simp
      have hpush : s.push_operation e =
          { s with history := tail ++ [e],
                   current_index := some ((tail ++ [e]).length - 1) } := by
        unfold DataStore.push_operation
        rw [hc]
        dsimp only
        have htake : s.history.take (s.max_history - 1 + 1) = s.history := by
          have heq : s.max_history - 1 + 1 = s.max_history := by omega
          rw [heq, ← hfull, List.take_length]
        rw [htake]
        rw [if_pos (by rw [hh]; simp; omega)]
        rw [hh]
        simp
      refine ⟨?_, ?_, ?_, ?_⟩
      · rw [hpush]
        simp only [List.length_append, List.length_cons, List.length_nil]
        omega
      · rw [hpush]
        simp only [DataStore.get_history, List.map_map]
        intro hmem
        rw [hh] at hids
        simp only [List.cons_append, List.map_cons, List.nodup_cons] at hids
        apply hids.1
        simp only [List.mem_map] at hmem ⊢
        obtain ⟨entry, hentry, hid⟩ := hmem
        exact ⟨entry, hentry, by simpa [HistoryEntryInfo.ofEntry] using hid⟩
      · rw [hpush]
        simp only [List.length_append, List.length_cons, List.length_nil,
          Option.some.injEq]
        omega
      · rw [hpush]
        unfold DataStore.get_current_entry
        dsimp only
        have hlen : (tail ++ [e]).length - 1 = tail.length := by
          simp
        rw [hlen]
        show (tail ++ [e])[tail.length]? = some e
        rw [List.getElem?_append_right (Nat.le_refl tail.length)]
        simp

/-- C4 witness: depth-1 store holding `entryA` with the cursor on it;
pushing `entryB` evicts `entryA`. -/
theorem C4_eviction_on_full_push_witness :
    1 ≤ (DataStore.mk [entryA] (some 0) 1).max_history ∧
    (DataStore.mk [entryA] (some 0) 1).history.length
      = (DataStore.mk [entryA] (some 0) 1).max_history ∧
    (DataStore.mk [entryA] (some 0) 1).current_index
      = some ((DataStore.mk [entryA] (some 0) 1).max_history - 1) ∧
    (DataStore.mk [entryA] (some 0) 1).history.head? = some entryA ∧
    (((DataStore.mk [entryA] (some 0) 1).history ++ [entryB]).map HistoryEntry.id).Nodup ∧
    (((DataStore.mk [entryA] (some 0) 1).push_operation entryB).history.length
        = (DataStore.mk [entryA] (some 0) 1).max_history ∧
      entryA.id ∉ ((DataStore.mk [entryA] (some 0) 1).push_operation entryB).get_history.map
        HistoryEntryInfo.id ∧
      ((DataStore.mk [entryA] (some 0) 1).push_operation entryB).current_index
        = some ((DataStore.mk [entryA] (some 0) 1).max_history - 1) ∧
      ((DataStore.mk [entryA] (some 0) 1).push_operation entryB).get_current_entry
        = some entryB) :=
  ⟨by decide, by decide, by decide, by decide, by decide,
    C4_eviction_on_full_push (DataStore.mk [entryA] (some 0) 1) entryB entryA
      (by decide) (by decide) (by decide) (by decide) (by decide)⟩

/-- C5: `undo` fails with `InvalidOperation` carrying the already-at-earliest
message (the code's "已经在最早状态，无法撤销", which the spec glosses as
"already at earliest") when the cursor is `Some 0`, fails with the no-data
message ("没有数据", "no data") when the cursor is `None`, and otherwise
succeeds with the cursor decremented by exactly one; error paths leave the
store untouched. -/
theorem C5_undo_cases (s : DataStore) :
    (s.current_index = some 0 →
      s.undo = (s, Except.error
        (DataAnalystError.InvalidOperation ("已经在最早状态，无法撤销")))) ∧
    (s.current_index = none →
      s.undo = (s, Except.error (DataAnalystError.InvalidOperation ("没有数据")))) ∧
    (∀ i, s.current_index = some (i + 1) →
      s.undo = ({ s with current_index := some i }, Except.ok ())) := by
  refine ⟨?_, ?_, ?_⟩
  · intro hc
    unfold DataStore.undo
    rw [hc]
    dsimp only
    rw [if_neg (by omega)]
  · intro hc
    unfold DataStore.undo
    rw [hc]
  · intro i hc
    unfold DataStore.undo
    rw [hc]
    dsimp only
    rw [if_pos (by omega)]
    rfl

/-- C5 witness: the three `undo` cases at concrete stores. -/
theorem C5_undo_cases_witness :
    DataStore.undo (DataStore.mk [entryA] (some 0) 50)
      = (DataStore.mk [entryA] (some 0) 50,
         Except.error (DataAnalystError.InvalidOperation ("已经在最早状态，无法撤销"))) ∧
    DataStore.undo (DataStore.mk [] none 50)
      = (DataStore.mk [] none 50,
         Except.error (DataAnalystError.InvalidOperation ("没有数据"))) ∧
    DataStore.undo (DataStore.mk [entryA, entryB] (some 1) 50)
      = (DataStore.mk [entryA, entryB] (some 0) 50, Except.ok ()) :=
  ⟨(C5_undo_cases (DataStore.mk [entryA] (some 0) 50)).1 rfl,
   (C5_undo_cases (DataStore.mk [] none 50)).2.1 rfl,
   (C5_undo_cases (DataStore.mk [entryA, entryB] (some 1) 50)).2.2 0 rfl⟩

/-- C6: on a store whose cursor is in bounds (the invariant of every
reachable store), a successful `undo` followed immediately by `redo`
succeeds and restores the exact store — in particular the exact cursor and
hence the identical current entry. -/
theorem C6_undo_then_redo_roundtrip (s s2 : DataStore)
    (hinv : ∀ i, s.current_index = some i → i < s.history.length)
    (h : s.undo = (s2, Except.ok ())) :
    s2.redo = (s, Except.ok ()) := by
  unfold DataStore.undo at h
  cases hc : s.current_index with
  | none =>
      rw [hc] at h
      simp at h
  | some i =>
      rw [hc] at h
      dsimp only at h
      by_cases hpos : i > 0
      · rw [if_pos hpos] at h
        have hs2 : s2 = { s with current_index := some (i - 1) } := by
          have hfst := congrArg Prod.fst h
          exact hfst.symm
        subst hs2
        have hi : i < s.history.length := hinv i hc
        unfold DataStore.redo
        dsimp only
        rw [if_pos (by omega)]
        have heq : i - 1 + 1 = i := by omega
        rw [heq, ← hc]
      · rw [if_neg hpos] at h
        simp at h

/-- C6 witness: undo then redo on a two-entry store at the tip. -/
theorem C6_undo_then_redo_roundtrip_witness :
    (∀ i, (DataStore.mk [entryA, entryB] (some 1) 50).current_index = some i →
      i < (DataStore.mk [entryA, entryB] (some 1) 50).history.length) ∧
    DataStore.undo (DataStore.mk [entryA, entryB] (some 1) 50)
      = (DataStore.mk [entryA, entryB] (some 0) 50, Except.ok ()) ∧
    DataStore.redo (DataStore.mk [entryA, entryB] (some 0) 50)
      = (DataStore.mk [entryA, entryB] (some 1) 50, Except.ok ()) :=
  ⟨fun i h => by simp at h ⊢; omega,
   rfl,
   C6_undo_then_redo_roundtrip (DataStore.mk [entryA, entryB] (some 1) 50)
     (DataStore.mk [entryA, entryB] (some 0) 50)
     (fun i h => by simp at h ⊢; omega) rfl⟩

/-- C7: every error path of `undo`, `redo`, `jump_to` and `reset_to_initial`
leaves the store exactly as it was; in particular `jump_to` with an
identifier present in no entry fails (with the entry-not-found error) and
changes nothing. -/
theorem C7_no_mutation_on_error (s : DataStore) (entry_id : String) :
    (∀ err, s.undo.2 = Except.error err → s.undo.1 = s) ∧
    (∀ err, s.redo.2 = Except.error err → s.redo.1 = s) ∧
    (∀ err, (s.jump_to entry_id).2 = Except.error err → (s.jump_to entry_id).1 = s) ∧
    (∀ err, s.reset_to_initial.2 = Except.error err → s.reset_to_initial.1 = s) ∧
    (s.history.all (fun entry => entry.id ≠ entry_id) = true →
      (s.jump_to entry_id).1 = s ∧
      (s.jump_to entry_id).2 = Except.error (DataAnalystError.InvalidOperation
        ("找不到历史节点: " ++ entry_id))) := by
  refine ⟨?_, ?_, ?_, ?_, ?_⟩
  · intro err
    unfold DataStore.undo
    cases s.current_index with
    | none => intro _; rfl
    | some i =>
        dsimp only
        by_cases hpos : i > 0
        · rw [if_pos hpos]
          intro herr
          simp at herr
        · rw [if_neg hpos]
          intro _
          rfl
  · intro err
    unfold DataStore.redo
    cases s.current_index with
    | none => intro _; rfl
    | some i =>
        dsimp only
        by_cases hlt : i < s.history.length - 1
        · rw [if_pos hlt]
          intro herr
          simp at herr
        · rw [if_neg hlt]
          intro _
          rfl
  · intro err
    unfold DataStore.jump_to
    cases listPosition (fun entry => entry.id = entry_id) s.history with
    | none => intro _; rfl
    | some i =>
        intro herr
        simp at herr
  · intro err
    unfold DataStore.reset_to_initial
    by_cases hemp : s.history.isEmpty
    · rw [if_pos hemp]
      intro _
      rfl
    · rw [if_neg hemp]
      intro herr
      simp at herr
  · intro hall
    have hnone : listPosition (fun entry => entry.id = entry_id) s.history = none := by
      apply listPosition_eq_none
      intro e he
      have := List.all_eq_true.mp hall e he
      simpa using this
    unfold DataStore.jump_to
    rw [hnone]
    exact ⟨rfl, rfl⟩

/-- C7 witness: on the empty store every one of the four operations (and
`jump_to` with an absent id) errors and leaves the store unchanged. -/
theorem C7_no_mutation_on_error_witness :
    DataStore.new.undo.2
      = Except.error (DataAnalystError.InvalidOperation ("没有数据")) ∧
    DataStore.new.undo.1 = DataStore.new ∧
    DataStore.new.redo.1 = DataStore.new ∧
    (DataStore.new.jump_to "z").1 = DataStore.new ∧
    DataStore.new.reset_to_initial.1 = DataStore.new ∧
    (DataStore.new.jump_to "z").2
      = Except.error (DataAnalystError.InvalidOperation ("找不到历史节点: z")) :=
  ⟨rfl,
   (C7_no_mutation_on_error DataStore.new "z").1
     (DataAnalystError.InvalidOperation ("没有数据")) rfl,
   (C7_no_mutation_on_error DataStore.new "z").2.1
     (DataAnalystError.InvalidOperation ("没有数据")) rfl,
   (C7_no_mutation_on_error DataStore.new "z").2.2.1
     (DataAnalystError.InvalidOperation ("找不到历史节点: z")) rfl,
   (C7_no_mutation_on_error DataStore.new "z").2.2.2.1
     (DataAnalystError.InvalidOperation ("没有历史记录")) rfl,
   ((C7_no_mutation_on_error DataStore.new "z").2.2.2.2 (by decide)).2⟩

/-- C8: `undo`, `redo` and `jump_to` — succeeding or failing — never touch
the history sequence (no entry created, destroyed or modified) nor the
depth bound; only the cursor may change. -/
theorem C8_navigation_preserves_history (s : DataStore) (entry_id : String) :
    s.undo.1.history = s.history ∧
    s.redo.1.history = s.history ∧
    (s.jump_to entry_id).1.history = s.history ∧
    s.undo.1.max_history = s.max_history ∧
    s.redo.1.max_history = s.max_history ∧
    (s.jump_to entry_id).1.max_history = s.max_history :=
  ⟨s.undo_fst_history, s.redo_fst_history, s.jump_to_fst_history entry_id,
   s.undo_fst_max, s.redo_fst_max, s.jump_to_fst_max entry_id⟩

/-- C9: `reset_to_initial` fails with `InvalidOperation` carrying the
no-history message ("没有历史记录", the spec's "no history") on an empty
store; otherwise it succeeds, keeps exactly the earliest entry with the
cursor on it, an immediate `redo` then fails; and on a store already holding
exactly one entry (cursor `Some 0`, as the invariant forces) it succeeds
changing nothing. -/
theorem C9_reset_to_initial_cases (s : DataStore) :
    (s.history = [] →
      s.reset_to_initial
        = (s, Except.error (DataAnalystError.InvalidOperation ("没有历史记录")))) ∧
    (s.history ≠ [] →
      s.reset_to_initial.2 = Except.ok () ∧
      s.reset_to_initial.1.history = s.history.take 1 ∧
      s.reset_to_initial.1.history.length = 1 ∧
      s.reset_to_initial.1.current_index = some 0 ∧
      s.reset_to_initial.1.redo
        = (s.reset_to_initial.1,
           Except.error (DataAnalystError.InvalidOperation ("已经在最新状态，无法重做")))) ∧
    (s.history.length = 1 → s.current_index = some 0 →
      s.reset_to_initial = (s, Except.ok ())) := by
  refine ⟨?_, ?_, ?_⟩
  · intro hh
    unfold DataStore.reset_to_initial
    rw [if_pos (by rw [hh]; rfl)]
  · intro hne
    have hpos : 0 < s.history.length := List.length_pos.mpr hne
    have hemp : ¬ s.history.isEmpty = true := by
      rw [List.isEmpty_iff_length_eq_zero]
      omega
    have hlen1 : (s.history.take 1).length = 1 := by
      simp [List.length_take]
      omega
    unfold DataStore.reset_to_initial
    rw [if_neg hemp]
    refine ⟨rfl, rfl, hlen1, rfl, ?_⟩
    unfold DataStore.redo
    dsimp only
    rw [if_neg (by rw [hlen1]; omega)]
  · intro hlen hc
    have hemp : ¬ s.history.isEmpty = true := by
      rw [List.isEmpty_iff_length_eq_zero]
      omega
    unfold DataStore.reset_to_initial
    rw [if_neg hemp]
    have htake : s.history.take 1 = s.history := by
      rw [← hlen, List.take_length]
    rw [htake, ← hc]

/-- C9 witness: the three `reset_to_initial` cases at concrete stores. -/
theorem C9_reset_to_initial_cases_witness :
    DataStore.reset_to_initial (DataStore.mk [] none 50)
      = (DataStore.mk [] none 50,
         Except.error (DataAnalystError.InvalidOperation ("没有历史记录"))) ∧
    ((DataStore.mk [entryA, entryB, entryC] (some 2) 50).reset_to_initial.2
        = Except.ok () ∧
      (DataStore.mk [entryA, entryB, entryC] (some 2) 50).reset_to_initial.1.history
        = [entryA, entryB, entryC].take 1 ∧
      (DataStore.mk [entryA, entryB, entryC] (some 2) 50).reset_to_initial.1.history.length = 1 ∧
      (DataStore.mk [entryA, entryB, entryC] (some 2) 50).reset_to_initial.1.current_index
        = some 0 ∧
      (DataStore.mk [entryA, entryB, entryC] (some 2) 50).reset_to_initial.1.redo
        = ((DataStore.mk [entryA, entryB, entryC] (some 2) 50).reset_to_initial.1,
           Except.error (DataAnalystError.InvalidOperation ("已经在最新状态，无法重做")))) ∧
    DataStore.reset_to_initial (DataStore.mk [entryA] (some 0) 50)
      = (DataStore.mk [entryA] (some 0) 50, Except.ok ()) :=
  ⟨(C9_reset_to_initial_cases (DataStore.mk [] none 50)).1 rfl,
   (C9_reset_to_initial_cases (DataStore.mk [entryA, entryB, entryC] (some 2) 50)).2.1
     (by decide),
   (C9_reset_to_initial_cases (DataStore.mk [entryA] (some 0) 50)).2.2
     (by decide) rfl⟩

/-- C10: with `max_history ≥ 1`, `push_operation` never evaluates
`history.len() - 1` on an empty history — the explicitly underflow-checked
model agrees with the total one on every store — while with
`max_history = 0` the eviction branch empties the history and the
subtraction underflows (Rust `usize` panic), so `max_history ≥ 1` is a
necessary precondition. -/
theorem C10_push_total_iff_max_positive (s : DataStore) (e : HistoryEntry)
    (hmax : 1 ≤ s.max_history) :
    s.push_operation_checked e = some (s.push_operation e) ∧
    (DataStore.with_max_history 0).push_operation_checked e = none := by
  constructor
  · unfold DataStore.push_operation_checked DataStore.push_operation
    cases s.current_index with
    | none =>
        dsimp only
        by_cases hev : (([] : List HistoryEntry) ++ [e]).length > s.max_history
        · exfalso
          simp at hev
          omega
        · rw [if_neg hev, if_neg hev]
          rw [if_neg (by simp)]
    | some i =>
        dsimp only
        by_cases hev : (s.history.take (i + 1) ++ [e]).length > s.max_history
        · rw [if_pos hev, if_pos hev]
          rw [if_neg (by rw [List.length_drop]; omega)]
        · rw [if_neg hev, if_neg hev]
          rw [if_neg (by simp)]
  · rfl

/-- C10 witness: the checked and unchecked push agree on the default store
(depth 50), and the depth-0 store underflows. -/
theorem C10_push_total_iff_max_positive_witness :
    1 ≤ DataStore.new.max_history ∧
    (DataStore.new.push_operation_checked entryA
        = some (DataStore.new.push_operation entryA) ∧
      (DataStore.with_max_history 0).push_operation_checked entryA = none) :=
  ⟨by decide, C10_push_total_iff_max_positive DataStore.new entryA (by decide)⟩

/-- C2 witness: two pushes into a fresh depth-2 store land the cursor on
`Some 1`. -/
theorem C2_cursor_after_push_witness :
    1 ≤ 2 ∧ ([entryA, entryB] : List HistoryEntry) ≠ [] ∧
    ([entryA, entryB] : List HistoryEntry).length ≤ 2 ∧
    (DataStore.with_max_history 2).pushAll [entryA, entryB]
      = { history := [entryA, entryB],
          current_index := some (([entryA, entryB] : List HistoryEntry).length - 1),
          max_history := 2 } :=
  ⟨by decide, by decide, by decide,
   C2_cursor_after_push.2 2 [entryA, entryB] (by decide) (by decide) (by decide)⟩
